import Mathlib

/-
Verification development for the alma-api-toolkit repository
(cu-library/alma-api-toolkit): a command-line toolkit driving bulk
operations against the Alma REST API.

The definitions below are shallow embeddings of the Go source:
pure text transforms become Lean functions on character lists, the
transport retry loop becomes a recursive function over an attempt
schedule, the set-member aggregation becomes a fold over page results,
and the concurrent worker pool becomes a small-step transition relation
over an explicit pool state.
-/

namespace AlmaToolkit

/-
Section 1: call-number cleanup
(subcommand/bibs/cleanupcallnumbers/cleanupcallnumbers.go,
function CleanupCallNumberSubfield, lines 174-190).

The Go function applies four regexp ReplaceAllString passes and a final
strings.TrimSpace.  Each regexp pass is embedded as a left-to-right scan
over the character list which rewrites every leftmost non-overlapping
match, exactly as Go regexp ReplaceAllString does.
-/

def isDigitChar (c : Char) : Bool := ('0' ≤ c) && (c ≤ '9')

def isLetterChar (c : Char) : Bool :=
  (('a' ≤ c) && (c ≤ 'z')) || (('A' ≤ c) && (c ≤ 'Z'))

/-- The apostrophe character, written via its code point. -/
def aposChar : Char := Char.ofNat 39

/-- Pass 1, regexp ([0-9])([a-zA-Z]) replaced by "digit space letter":
add a space between a number then a letter. -/
def addSpaceDigitLetter : List Char → List Char
  | c1 :: c2 :: rest =>
    if isDigitChar c1 && isLetterChar c2 then
      c1 :: ' ' :: c2 :: addSpaceDigitLetter rest
    else
      c1 :: addSpaceDigitLetter (c2 :: rest)
  | l => l

/-- Pass 2, regexp ([0-9])\.([a-zA-Z]) replaced by "digit space period
letter": add a space between a number and a period when the period is
followed by a letter. -/
def addSpaceDigitPeriodLetter : List Char → List Char
  | c1 :: c2 :: c3 :: rest =>
    if isDigitChar c1 && (c2 == '.') && isLetterChar c3 then
      c1 :: ' ' :: '.' :: c3 :: addSpaceDigitPeriodLetter rest
    else
      c1 :: addSpaceDigitPeriodLetter (c2 :: c3 :: rest)
  | l => l

/-- Number of consecutive periods at the head of the list. -/
def leadingPeriods : List Char → Nat
  | '.' :: rest => leadingPeriods rest + 1
  | _ => 0

/-- Number of consecutive spaces at the head of the list. -/
def leadingSpaces : List Char → Nat
  | ' ' :: rest => leadingSpaces rest + 1
  | _ => 0

/-- Pass 3, the source regexp is a space, two or more periods, then an
apostrophe (the pattern in the source carries a trailing apostrophe
character), replaced by "space period".  A fuel argument (the list
length suffices) makes the scan structurally recursive. -/
def removeExtraPeriodsGo (fuel : Nat) : List Char → List Char
  | [] => []
  | c :: rest =>
    match fuel with
    | 0 => c :: rest
    | fuel + 1 =>
      if c == ' ' then
        match rest with
        | '.' :: rest2 =>
          let k := leadingPeriods rest2
          if 1 ≤ k && (rest2.drop k).take 1 == [aposChar] then
            ' ' :: '.' :: removeExtraPeriodsGo fuel (rest2.drop (k + 1))
          else
            ' ' :: removeExtraPeriodsGo fuel ('.' :: rest2)
        | _ => c :: removeExtraPeriodsGo fuel rest
      else c :: removeExtraPeriodsGo fuel rest

def removeExtraPeriods (l : List Char) : List Char :=
  removeExtraPeriodsGo l.length l

/-- Pass 4, regexp \. +([0-9]) replaced by "period digit": remove any
spaces between a period and a number.  Fuel as in pass 3. -/
def removeSpacesPeriodNumberGo (fuel : Nat) : List Char → List Char
  | [] => []
  | c :: rest =>
    match fuel with
    | 0 => c :: rest
    | fuel + 1 =>
      if c == '.' then
        let k := leadingSpaces rest
        if 1 ≤ k then
          match rest.drop k with
          | d :: rest2 =>
            if isDigitChar d then
              '.' :: d :: removeSpacesPeriodNumberGo fuel rest2
            else
              '.' :: removeSpacesPeriodNumberGo fuel rest
          | [] => '.' :: removeSpacesPeriodNumberGo fuel rest
        else '.' :: removeSpacesPeriodNumberGo fuel rest
      else c :: removeSpacesPeriodNumberGo fuel rest

def removeSpacesPeriodNumber (l : List Char) : List Char :=
  removeSpacesPeriodNumberGo l.length l

/-- Whitespace as trimmed by Go strings.TrimSpace (unicode.IsSpace,
restricted here to the Latin-1 range, which covers every character the
call-number transform can produce). -/
def isSpaceGo (c : Char) : Bool :=
  (c == ' ') || (c == Char.ofNat 9) || (c == Char.ofNat 10) ||
  (c == Char.ofNat 11) || (c == Char.ofNat 12) || (c == Char.ofNat 13) ||
  (c == Char.ofNat 0x85) || (c == Char.ofNat 0xA0)

def trimSpaceChars (l : List Char) : List Char :=
  ((l.dropWhile isSpaceGo).reverse.dropWhile isSpaceGo).reverse

def trimSpace (s : String) : String :=
  String.mk (trimSpaceChars s.data)

/-- CleanupCallNumberSubfield returns a call number which is cleaned up
(the four regexp passes followed by TrimSpace, in source order). -/
def CleanupCallNumberSubfield (callNum : String) : String :=
  String.mk (trimSpaceChars (removeSpacesPeriodNumber (removeExtraPeriods
    (addSpaceDigitPeriodLetter (addSpaceDigitLetter callNum.data)))))

end AlmaToolkit

namespace AlmaToolkit

/-
Section 2: the rate/backoff HTTP transport (api/api.go, Client.Do,
lines 92-165, and the older snapshot requestWithBackoff in api.go,
lines 425-501).

A response is modelled by its status code, the parsed value of the
X-Exl-Api-Remaining header (none when the header is missing or does not
parse with strconv.Atoi), and the body.  Client.Do's handling of a
received response (threshold check, then status-code check) and the
older requestWithBackoff variant (cancel invocation, then status-code
check) are embedded separately, because they differ.  The retry loop is
embedded as a recursive function over a schedule of attempt results,
where elapsed time counts the backoff pauses and the context timeout
fires when a pause would end at or past the deadline.
-/

structure HttpResponse where
  statusCode : Nat
  remaining : Option Int
  body : String
deriving DecidableEq

/-- The non-success condition of api/api.go line 159: a DELETE fails on
any status other than 204, and every other method fails on any status
other than 200. -/
def statusFails (method : String) (status : Nat) : Bool :=
  ((method == "DELETE") && (status != 204)) ||
  ((method != "DELETE") && (status != 200))

/-- The threshold condition of api/api.go lines 153-154: the remaining
header parsed and the parsed value is at or below the threshold. -/
def tripsThreshold (threshold : Int) (resp : HttpResponse) : Bool :=
  match resp.remaining with
  | some rem => decide (rem ≤ threshold)
  | none => false

/-- What Client.Do returns for a call, as seen by its caller. -/
inductive DoOutcome
  | success (body : String)
  | thresholdErr (remaining threshold : Int) (body : String)
  | statusErr (method url : String) (status : Nat) (body : String)
  | ctxErr (method url : String)
deriving DecidableEq

/-- True exactly when the Go error value of the outcome is nil. -/
def errIsNil : DoOutcome → Bool
  | .success _ => true
  | _ => false

/-- Client.Do's handling of a received response (api/api.go lines
141-162): first the remaining-calls threshold check, which returns the
body together with a typed ThresholdReachedError, then the status-code
check, then success. -/
def doProcessResponse (threshold : Int) (method url : String)
    (resp : HttpResponse) : DoOutcome :=
  match resp.remaining with
  | some rem =>
    if rem ≤ threshold then .thresholdErr rem threshold resp.body
    else if statusFails method resp.statusCode then
      .statusErr method url resp.statusCode resp.body
    else .success resp.body
  | none =>
    if statusFails method resp.statusCode then
      .statusErr method url resp.statusCode resp.body
    else .success resp.body

/-- What the older requestWithBackoff (api.go lines 486-498) does with a
received response: whether it invoked the caller-visible cancel
function, the error value (the status-code failure carrying method,
URL, status and body, or nil), and the returned body. -/
structure RwbOutcome where
  cancelInvoked : Bool
  err : Option (String × String × Nat × String)
  body : String
deriving DecidableEq

def rwbProcessResponse (threshold : Int) (method url : String)
    (resp : HttpResponse) : RwbOutcome where
  cancelInvoked := tripsThreshold threshold resp
  err :=
    if statusFails method resp.statusCode then
      some (method, url, resp.statusCode, resp.body)
    else none
  body := resp.body

/-- One attempt of the embedded http.Client.Do call: either a
connection-level failure (retried with backoff) or a response. -/
inductive AttemptResult
  | connError
  | response (resp : HttpResponse)
deriving DecidableEq

/-- The result of a whole Client.Do call: the outcome, the number of
HTTP attempts actually issued, and the pause (in seconds) taken before
each attempt. -/
structure DoResult where
  outcome : DoOutcome
  attempts : Nat
  pauses : List Nat
deriving DecidableEq

/-- RequestTimeout (api/api.go line 26), in seconds. -/
def RequestTimeoutSecs : Nat := 30

/-- LimitParam (api/api.go line 29). -/
def LimitParam : Nat := 100

/-- The retry loop of Client.Do (api/api.go lines 104-164).  The
schedule att gives the result of each successive attempt; backoff and
elapsed are the loop state (elapsed counts pause time; network time is
not modelled).  When the pending pause would end at or past the timeout
the context case of the select fires and the call returns the context
error without issuing the attempt. -/
def doLoop (threshold : Int) (method url : String) (timeout : Nat)
    (att : Nat → AttemptResult) (backoff elapsed : Nat) : DoResult :=
  if _h : timeout ≤ elapsed + backoff then ⟨.ctxErr method url, 0, []⟩
  else
    match att 0 with
    | .connError =>
      let r := doLoop threshold method url timeout (fun n => att (n + 1))
        (backoff + 1) (elapsed + backoff)
      ⟨r.outcome, r.attempts + 1, backoff :: r.pauses⟩
    | .response resp => ⟨doProcessResponse threshold method url resp, 1, [backoff]⟩
termination_by timeout - (elapsed + backoff)
decreasing_by simp_wf; omega

/-- Client.Do (api/api.go lines 92-165).  A call whose caller context is
already cancelled returns the context error from the select (lines
107-117) without issuing any HTTP request; otherwise the retry loop
runs with backoff 0 and no elapsed time. -/
def clientDo (ctxCancelled : Bool) (threshold : Int) (method url : String)
    (timeout : Nat) (att : Nat → AttemptResult) : DoResult :=
  if ctxCancelled then ⟨.ctxErr method url, 0, []⟩
  else doLoop threshold method url timeout att 0 0

/-- Sum of the pauses backoff, backoff+1, ..., backoff+k taken by k+1
attempts starting from the given backoff. -/
def pauseSum (backoff : Nat) : Nat → Nat
  | 0 => backoff
  | k + 1 => backoff + pauseSum (backoff + 1) k

/-- The list of pauses backoff, backoff+1, ..., backoff+k. -/
def pausesFrom (backoff : Nat) : Nat → List Nat
  | 0 => [backoff]
  | k + 1 => backoff :: pausesFrom (backoff + 1) k

/-
Section 3: set resolution and member pagination (api/libraries.go,
SetIDFromName lines 212-238, SetMembers lines 258-301; the older
snapshot GetSetFromName and GetMembers in the main package have the
same matching and counting logic).
-/

structure Member where
  ID : String
  Link : String
deriving DecidableEq

/-- The source struct is named Set; it is called AlmaSet here because
Set is taken by the ambient library. -/
structure AlmaSet where
  ID : String
  Name : String
  NumberOfMembers : Nat
  Link : String
deriving DecidableEq

inductive SetLookupResult
  | ok (ID : String)
  | notFound (name : String)
deriving DecidableEq

/-- SetIDFromName (api/libraries.go lines 212-238): the server answers
the contains-query name~query with a list of candidate sets; the loop
returns the ID of the first candidate whose TrimSpace-trimmed name
equals the trimmed query, and falls through to a not-found error. -/
def SetIDFromName (name : String) (sets : List AlmaSet) : SetLookupResult :=
  match sets.find? (fun s => trimSpace s.Name == trimSpace name) with
  | some s => .ok s.ID
  | none => .notFound name

inductive FetchErr
  | pageErr (msg : String)
  | countMismatch (found expected : Nat)
deriving DecidableEq

/-- One Go map assignment membersMap[member.ID] = member, on a map
modelled as an association list with distinct keys. -/
def insertMember (m : List (String × Member)) (mem : Member) :
    List (String × Member) :=
  if (m.map Prod.fst).contains mem.ID then
    m.map (fun p => if p.1 = mem.ID then (mem.ID, mem) else p)
  else m ++ [(mem.ID, mem)]

def insertMembers (m : List (String × Member)) (mems : List Member) :
    List (String × Member) :=
  mems.foldl insertMember m

/-- The accumulation performed by the page-fetch jobs of SetMembers
(api/libraries.go lines 268-291), linearized in job completion order:
a failed page appends its error under the errors mutex, a successful
page folds its members into the map under the output mutex. -/
def collectPages (pages : List (Except String (List Member))) :
    List (String × Member) × List FetchErr :=
  pages.foldl
    (fun acc page =>
      match page with
      | .error e => (acc.1, acc.2 ++ [FetchErr.pageErr e])
      | .ok mems => (insertMembers acc.1 mems, acc.2))
    ([], [])

/-- The size of the deduplicated member map after all page jobs. -/
def dedupCount (pages : List (Except String (List Member))) : Nat :=
  (collectPages pages).1.length

/-- The tail of SetMembers (api/libraries.go lines 292-301): after
StopConcurrent, if the map size differs from the declared member count
an error naming found and expected counts is appended and the nil
member slice is returned; otherwise the map values are returned with
the accumulated page errors. -/
def SetMembers (declared : Nat) (pages : List (Except String (List Member))) :
    List Member × List FetchErr :=
  let c := collectPages pages
  if c.1.length ≠ declared then
    ([], c.2 ++ [FetchErr.countMismatch c.1.length declared])
  else (c.1.map Prod.snd, c.2)

/-- The member IDs delivered by the successful pages, in page order. -/
def successIDs (pages : List (Except String (List Member))) : List String :=
  (pages.map (fun page =>
    match page with
    | .error _ => []
    | .ok mems => mems.map Member.ID)).flatten

/-- The page-count computation of SetMembers (api/libraries.go lines
261-265): NumberOfMembers / LimitParam, plus one more page when there
is a remainder. -/
def offsetsCount (numberOfMembers : Nat) : Nat :=
  numberOfMembers / LimitParam +
    (if numberOfMembers % LimitParam ≠ 0 then 1 else 0)

/-- SetMembers including the page-job creation of lines 266-291: one
job per offset i * LimitParam for i below the page count, each fetching
through the abstract page fetcher. -/
def SetMembersRun (s : AlmaSet)
    (fetch : Nat → Except String (List Member)) :
    List Member × List FetchErr :=
  SetMembers s.NumberOfMembers
    ((List.range (offsetsCount s.NumberOfMembers)).map
      (fun i => fetch (i * LimitParam)))

/-
Section 4: user requests and the items-cancel-requests run
(the api package UserRequest snapshot reproduced in README.md lines
318-447, and subcommand cancelrequests Config.Run in part_008 lines
46-129).
-/

/-- The source fields Type and SubType are written RequestType and
RequestSubType here (as in the older main-package snapshot of the same
struct) because Type is a Lean keyword. -/
structure UserRequest where
  ID : String
  RequestType : String
  RequestSubType : String
  Member : Member
deriving DecidableEq

/-- MatchTypeSubType returns true if rtype is empty or matches the
request type, and subType is empty or matches the request subtype. -/
def MatchTypeSubType (u : UserRequest) (rtype subType : String) : Bool :=
  if ((rtype == "") || (rtype == u.RequestType)) &&
     ((subType == "") || (subType == u.RequestSubType)) then true
  else false

/-- The matching list built by Config.Run (part_008 lines 73-78). -/
def matchingRequests (requests : List UserRequest) (rtype subType : String) :
    List UserRequest :=
  requests.filter (fun r => MatchTypeSubType r rtype subType)

/-- The DELETE call URLs issued by UserRequestsCancel via
UserRequestCancel (README.md lines 402-447): one DELETE per request in
the list, except requests with an empty member link, which produce an
error without a call. -/
def cancelDeleteCalls (requests : List UserRequest) : List String :=
  (requests.filter (fun r => r.Member.Link != "")).map
    (fun r => r.Member.Link ++ "/requests/" ++ r.ID)

/-- The DELETE calls of a cancel-requests run without dryrun
(part_008 lines 85-87): UserRequestsCancel applied to the matching
requests only. -/
def cancelRunDeletes (requests : List UserRequest) (rtype subType : String) :
    List String :=
  cancelDeleteCalls (matchingRequests requests rtype subType)

/-- The Matched-type-and-subtype CSV column of Config.Run (part_008
lines 79-82 and 97-104): membership of the request member link in the
map keyed by the links of the matching requests. -/
def matchedColumn (requests : List UserRequest) (rtype subType : String)
    (r : UserRequest) : Bool :=
  (matchingRequests requests rtype subType).any
    (fun q => q.Member.Link == r.Member.Link)

/-
Section 5: the cancellable work dispatcher (api/api.go, StartWorkers
lines 168-178, StartConcurrent lines 181-193, StopConcurrent lines
196-199).

The pool is modelled as a small-step transition system.  Jobs are
numbered 0..N-1.  toSend holds the jobs the caller has not yet pushed
onto the unbuffered channel, queue the jobs sent but not yet picked up
by a worker, idle the workers blocked on a channel receive, running the
jobs currently being executed (one per busy worker), done the executed
jobs, and closed whether close(jobs) has happened.  A worker exits its
range loop only when the channel is closed and drained; StopConcurrent
has returned exactly in the terminal states, where the channel is
closed and every worker has exited (no idle receiver, no in-flight
job, so the wait group is at zero). -/

structure PoolState where
  toSend : List Nat
  queue : List Nat
  idle : Nat
  running : Multiset Nat
  done : Multiset Nat
  closed : Bool
deriving DecidableEq

/-- The dispatcher started with N jobs to submit and W workers. -/
def initPool (N W : Nat) : PoolState :=
  ⟨List.range N, [], W, 0, 0, false⟩

inductive PoolStep : PoolState → PoolState → Prop
  | send {s : PoolState} (j : Nat) (rest : List Nat) :
      s.toSend = j :: rest → s.closed = false →
      PoolStep s { s with toSend := rest, queue := s.queue ++ [j] }
  | close {s : PoolState} :
      s.toSend = [] → s.closed = false →
      PoolStep s { s with closed := true }
  | recv {s : PoolState} (j : Nat) (rest : List Nat) :
      s.queue = j :: rest → 0 < s.idle →
      PoolStep s
        { s with queue := rest, idle := s.idle - 1, running := j ::ₘ s.running }
  | finish {s : PoolState} (j : Nat) :
      j ∈ s.running →
      PoolStep s
        { s with running := s.running.erase j, done := j ::ₘ s.done,
                 idle := s.idle + 1 }
  | exitWorker {s : PoolState} :
      s.closed = true → s.queue = [] → 0 < s.idle →
      PoolStep s { s with idle := s.idle - 1 }

/-- StopConcurrent has returned: the channel is closed and wg.Wait is
done, every worker having exited. -/
def PoolState.terminal (s : PoolState) : Prop :=
  s.closed = true ∧ s.idle = 0 ∧ s.running = 0

/-- Invariant of the pool: jobs are conserved, worker count is
conserved while the channel is open, the channel is only closed after
all sends, and the queue can only be non-empty while a worker remains. -/
def PoolInv (N W : Nat) (s : PoolState) : Prop :=
  ((s.toSend : Multiset Nat) + (s.queue : Multiset Nat) + s.running + s.done =
    (List.range N : Multiset Nat)) ∧
  (s.closed = false → s.idle + Multiset.card s.running = W) ∧
  (s.closed = true → s.toSend = []) ∧
  (s.idle = 0 ∧ s.running = 0 → s.queue = [])

theorem pausesFrom_eq_map (k b : Nat) :
    pausesFrom b k = (List.range (k + 1)).map (b + ·) := by
  induction k generalizing b with
  | zero => simp [pausesFrom, List.range_succ]
  | succ k ih =>
    rw [pausesFrom, ih (b + 1)]
    conv_rhs => rw [List.range_succ_eq_map]
    simp only [List.map_cons, List.map_map, Nat.add_zero]
    congr 1
    apply List.map_congr_left
    intro a _
    simp only [Function.comp]
    omega

theorem pausesFrom_zero (k : Nat) : pausesFrom 0 k = List.range (k + 1) := by
  rw [pausesFrom_eq_map]
  simp

theorem doLoop_connError (threshold : Int) (method url : String)
    (timeout : Nat) (att : Nat → AttemptResult) (backoff elapsed : Nat)
    (hguard : ¬ timeout ≤ elapsed + backoff) (hatt : att 0 = .connError) :
    doLoop threshold method url timeout att backoff elapsed =
      let r := doLoop threshold method url timeout (fun n => att (n + 1))
        (backoff + 1) (elapsed + backoff)
      ⟨r.outcome, r.attempts + 1, backoff :: r.pauses⟩ := by
  rw [doLoop, dif_neg hguard, hatt]

theorem doLoop_response (threshold : Int) (method url : String)
    (timeout : Nat) (att : Nat → AttemptResult) (backoff elapsed : Nat)
    (resp : HttpResponse)
    (hguard : ¬ timeout ≤ elapsed + backoff) (hatt : att 0 = .response resp) :
    doLoop threshold method url timeout att backoff elapsed =
      ⟨doProcessResponse threshold method url resp, 1, [backoff]⟩ := by
  rw [doLoop, dif_neg hguard, hatt]

theorem pauseSum_le (backoff : Nat) (k : Nat) : backoff ≤ pauseSum backoff k := by
  cases k with
  | zero => exact Nat.le_refl backoff
  | succ k => exact Nat.le_add_right backoff (pauseSum (backoff + 1) k)

/-- The retry loop with K connection failures then a response: K+1
attempts, with pauses backoff, backoff+1, ..., backoff+K, provided the
pause time fits under the timeout. -/
theorem doLoop_retry_spec (threshold : Int) (method url : String)
    (timeout : Nat) (resp : HttpResponse) :
    ∀ (K : Nat) (att : Nat → AttemptResult) (backoff elapsed : Nat),
    (∀ n, n < K → att n = .connError) → att K = .response resp →
    elapsed + pauseSum backoff K < timeout →
    doLoop threshold method url timeout att backoff elapsed =
      ⟨doProcessResponse threshold method url resp, K + 1, pausesFrom backoff K⟩ := by
  intro K
  induction K with
  | zero =>
    intro att backoff elapsed _hfail hsucc htime
    have hguard : ¬ timeout ≤ elapsed + backoff := by
      simp only [pauseSum] at htime
      omega
    rw [doLoop_response threshold method url timeout att backoff elapsed resp
      hguard hsucc]
    rfl
  | succ K ih =>
    intro att backoff elapsed hfail hsucc htime
    have hsum : pauseSum backoff (K + 1) = backoff + pauseSum (backoff + 1) K := rfl
    have hguard : ¬ timeout ≤ elapsed + backoff := by
      have hle := pauseSum_le (backoff + 1) K
      omega
    rw [doLoop_connError threshold method url timeout att backoff elapsed
      hguard (hfail 0 (Nat.succ_pos K))]
    rw [ih (fun n => att (n + 1)) (backoff + 1) (elapsed + backoff)
      (fun n hn => hfail (n + 1) (Nat.succ_lt_succ hn)) hsucc (by omega)]
    rfl

theorem tripsThreshold_false_some (threshold rem : Int) (resp : HttpResponse)
    (hrem : resp.remaining = some rem)
    (hthr : tripsThreshold threshold resp = false) : ¬ rem ≤ threshold := by
  unfold tripsThreshold at hthr
  rw [hrem] at hthr
  simpa using hthr

theorem doProcessResponse_success (threshold : Int) (method url : String)
    (resp : HttpResponse)
    (hthr : tripsThreshold threshold resp = false)
    (hok : statusFails method resp.statusCode = false) :
    doProcessResponse threshold method url resp = .success resp.body := by
  unfold doProcessResponse
  cases hrem : resp.remaining with
  | none => simp [hok]
  | some rem =>
    have hgt := tripsThreshold_false_some threshold rem resp hrem hthr
    simp [hgt, hok]

/-- Status-code success characterization of api/api.go line 159. -/
theorem statusFails_eq_false_iff (method : String) (status : Nat) :
    statusFails method status = false ↔
      ((method = "DELETE" ∧ status = 204) ∨
       (method ≠ "DELETE" ∧ status = 200)) := by
  by_cases hm : method = "DELETE" <;> simp [statusFails, hm]

end AlmaToolkit

namespace AlmaToolkit

/-- C8: the call-number cleanup transform is a pure, deterministic
function of its input string; on input BR115.C5L43 it yields
BR115 .C5 L43, and on input BS410.V452 V. 31 it yields BS410 .V452 V.31. -/
theorem c8_cleanup_call_number_scenarios :
    CleanupCallNumberSubfield "BR115.C5L43" = "BR115 .C5 L43" ∧
    CleanupCallNumberSubfield "BS410.V452 V. 31" = "BS410 .V452 V.31" := by
  constructor <;> decide

/-- C5: a transport call invoked with an already-cancelled (or
deadline-exceeded) caller context returns the context error
immediately, issuing no HTTP attempt and taking no backoff pause
(api/api.go lines 106-117, mirrored by TestDoCancelledContext); a job
submitted after a threshold-triggered cancellation runs its calls under
this cancelled shared context, so it fails with the cancellation error
rather than attempting network I/O. -/
theorem c5_cancelled_context_no_request (threshold : Int) (method url : String)
    (timeout : Nat) (att : Nat → AttemptResult) :
    clientDo true threshold method url timeout att =
      ⟨.ctxErr method url, 0, []⟩ := rfl

/-- C4: if the first K connection-level attempts fail (with no
cancellation) and attempt K+1 returns a success response, Client.Do
succeeds after exactly K+1 attempts, with attempt i preceded by a pause
of i-1 seconds (0s, 1s, 2s, ...), provided the total pause time stays
under the 30-second per-call timeout. -/
theorem c4_linear_backoff_retry (K : Nat) (threshold : Int)
    (method url : String) (att : Nat → AttemptResult) (resp : HttpResponse)
    (hfail : ∀ n, n < K → att n = .connError)
    (hsucc : att K = .response resp)
    (hthr : tripsThreshold threshold resp = false)
    (hok : statusFails method resp.statusCode = false)
    (htime : pauseSum 0 K < RequestTimeoutSecs) :
    clientDo false threshold method url RequestTimeoutSecs att =
      ⟨.success resp.body, K + 1, List.range (K + 1)⟩ := by
  unfold clientDo
  rw [if_neg (by simp)]
  rw [doLoop_retry_spec threshold method url RequestTimeoutSecs resp K att 0 0
    hfail hsucc (by omega)]
  rw [doProcessResponse_success threshold method url resp hthr hok,
    pausesFrom_zero]

/-- C4 witness: two connection failures then a 200 response on a GET
succeed after three attempts with pauses of 0, 1 and 2 seconds. -/
theorem c4_witness :
    clientDo false 50000 "GET" "/almaws/v1/conf/libraries" RequestTimeoutSecs
      (fun n => if n < 2 then .connError else .response ⟨200, none, "ok"⟩) =
      ⟨.success "ok", 3, List.range 3⟩ :=
  c4_linear_backoff_retry 2 50000 "GET" "/almaws/v1/conf/libraries"
    (fun n => if n < 2 then .connError else .response ⟨200, none, "ok"⟩)
    ⟨200, none, "ok"⟩ (by decide) (by decide) (by decide) (by decide)
    (by decide)

/-- C2 counterexample, on Client.Do (api/api.go lines 150-157): a GET
whose 200 response reports 1 remaining call against threshold 2
returns the body together with a non-nil typed ThresholdReachedError
on that very call, so the call does not return a nil error and the
typed error is not deferred to later calls. -/
theorem c2_counterexample :
    doProcessResponse 2 "GET" "/almaws/v1/conf/libraries"
      ⟨200, some 1, "Hello!"⟩ = .thresholdErr 1 2 "Hello!" ∧
    errIsNil (doProcessResponse 2 "GET" "/almaws/v1/conf/libraries"
      ⟨200, some 1, "Hello!"⟩) = false := by
  constructor <;> decide

/-- C2 amended: when the response reports remaining calls at or below
the threshold, the two transport variants behave as follows.  Client.Do
returns the body together with the typed ThresholdReachedError
immediately on that same call (skipping the status check) and invokes
no cancellation itself; its callers detect the typed error and cancel
the shared context.  The older requestWithBackoff invokes the
caller-visible cancel function and, when the status is a success,
still returns the body with a nil error, the threshold being surfaced
to later calls only through the cancelled context. -/
theorem c2_amended_threshold_behaviour (threshold rem : Int)
    (method url : String) (resp : HttpResponse)
    (hrem : resp.remaining = some rem) (hle : rem ≤ threshold) :
    doProcessResponse threshold method url resp =
      .thresholdErr rem threshold resp.body ∧
    (rwbProcessResponse threshold method url resp).cancelInvoked = true ∧
    (statusFails method resp.statusCode = false →
      (rwbProcessResponse threshold method url resp).err = none ∧
      (rwbProcessResponse threshold method url resp).body = resp.body) := by
  refine ⟨?_, ?_, ?_⟩
  · unfold doProcessResponse
    rw [hrem]
    simp [hle]
  · simp [rwbProcessResponse, tripsThreshold, hrem, hle]
  · intro hok
    exact ⟨by simp [rwbProcessResponse, hok], rfl⟩

/-- C2 witness: the amended statement at the concrete response of the
counterexample. -/
theorem c2_witness :
    doProcessResponse 2 "GET" "/almaws/v1/users" ⟨200, some 1, "Hello!"⟩ =
      .thresholdErr 1 2 "Hello!" ∧
    (rwbProcessResponse 2 "GET" "/almaws/v1/users"
      ⟨200, some 1, "Hello!"⟩).cancelInvoked = true ∧
    (rwbProcessResponse 2 "GET" "/almaws/v1/users"
      ⟨200, some 1, "Hello!"⟩).err = none :=
  ⟨(c2_amended_threshold_behaviour 2 1 "GET" "/almaws/v1/users"
      ⟨200, some 1, "Hello!"⟩ rfl (by decide)).1,
   (c2_amended_threshold_behaviour 2 1 "GET" "/almaws/v1/users"
      ⟨200, some 1, "Hello!"⟩ rfl (by decide)).2.1,
   ((c2_amended_threshold_behaviour 2 1 "GET" "/almaws/v1/users"
      ⟨200, some 1, "Hello!"⟩ rfl (by decide)).2.2 (by decide)).1⟩

/-- C3 counterexample, on Client.Do: because the threshold check
(api/api.go lines 153-157) runs before the status check (lines
158-161), a DELETE whose 204 response reports 1 remaining call against
threshold 2 is an error, not a success. -/
theorem c3_counterexample :
    doProcessResponse 2 "DELETE" "/almaws/v1/bibs/1/requests/9"
      ⟨204, some 1, ""⟩ = .thresholdErr 1 2 "" ∧
    errIsNil (doProcessResponse 2 "DELETE" "/almaws/v1/bibs/1/requests/9"
      ⟨204, some 1, ""⟩) = false := by
  constructor <;> decide

/-- C3 amended: for every response that does not trip the
remaining-calls threshold, the status convention holds as claimed: a
DELETE succeeds exactly on status 204 and every other method exactly on
status 200; any other status yields the terminal error carrying the
method, URL, status code, and response body; and a response, whatever
its status, ends the retry loop after that one attempt, so non-success
statuses are not retried.  When the threshold is tripped, the typed
threshold error replaces this convention (see the counterexample). -/
theorem c3_amended_status_convention (threshold : Int) (method url : String)
    (resp : HttpResponse) (hthr : tripsThreshold threshold resp = false) :
    (doProcessResponse threshold method url resp = .success resp.body ↔
      ((method = "DELETE" ∧ resp.statusCode = 204) ∨
       (method ≠ "DELETE" ∧ resp.statusCode = 200))) ∧
    (statusFails method resp.statusCode = true →
      doProcessResponse threshold method url resp =
        .statusErr method url resp.statusCode resp.body) ∧
    (∀ (timeout : Nat) (att : Nat → AttemptResult),
      att 0 = .response resp → 0 < timeout →
      clientDo false threshold method url timeout att =
        ⟨doProcessResponse threshold method url resp, 1, [0]⟩) := by
  have hstat : statusFails method resp.statusCode = true →
      doProcessResponse threshold method url resp =
        .statusErr method url resp.statusCode resp.body := by
    intro hs
    unfold doProcessResponse
    cases hrem : resp.remaining with
    | none => simp [hs]
    | some rem =>
      have hgt := tripsThreshold_false_some threshold rem resp hrem hthr
      simp [hgt, hs]
  refine ⟨?_, hstat, ?_⟩
  · constructor
    · intro hsucc
      rw [← statusFails_eq_false_iff]
      cases h2 : statusFails method resp.statusCode
      · rfl
      · rw [hstat h2] at hsucc
        exact DoOutcome.noConfusion hsucc
    · intro hd
      exact doProcessResponse_success threshold method url resp hthr
        ((statusFails_eq_false_iff method resp.statusCode).mpr hd)
  · intro timeout att hatt htpos
    unfold clientDo
    rw [if_neg (by simp)]
    exact doLoop_response threshold method url timeout att 0 0 resp
      (by omega) hatt

/-- C6: SetIDFromName returns the ID of a server-returned candidate
whose whitespace-trimmed name equals the whitespace-trimmed query (so a
candidate that merely contains the query as a substring is never the
result), and returns the not-found error whenever no candidate matches
exactly. -/
theorem c6_set_id_exact_match (name : String) (sets : List AlmaSet) :
    (∀ ID, SetIDFromName name sets = .ok ID →
      ∃ s, s ∈ sets ∧ trimSpace s.Name = trimSpace name ∧ s.ID = ID) ∧
    ((∀ s, s ∈ sets → trimSpace s.Name ≠ trimSpace name) →
      SetIDFromName name sets = .notFound name) := by
  constructor
  · intro ID h
    unfold SetIDFromName at h
    cases hf : sets.find? (fun s => trimSpace s.Name == trimSpace name) with
    | none =>
      rw [hf] at h
      exact SetLookupResult.noConfusion h
    | some s =>
      rw [hf] at h
      have hmem := List.mem_of_find?_eq_some hf
      have hpred := List.find?_some hf
      simp only [beq_iff_eq] at hpred
      cases h
      exact ⟨s, hmem, hpred, rfl⟩
  · intro hnone
    unfold SetIDFromName
    have hfind : sets.find? (fun s => trimSpace s.Name == trimSpace name)
        = none := by
      apply List.find?_eq_none.mpr
      intro s hs
      simp only [beq_iff_eq]
      exact hnone s hs
    rw [hfind]

/-- C6 witness: among two candidates returned for the contains-query,
the one whose trimmed name equals the query is the result, and a query
matching no candidate exactly is a not-found error. -/
theorem c6_witness :
    (∃ s, s ∈ ([⟨"ID1", "Other Name", 5, "/l1"⟩,
        ⟨"ID2", " Target ", 7, "/l2"⟩] : List AlmaSet) ∧
      trimSpace s.Name = trimSpace "Target" ∧ s.ID = "ID2") ∧
    SetIDFromName "Absent" ([⟨"ID1", "Other Name", 5, "/l1"⟩,
        ⟨"ID2", " Target ", 7, "/l2"⟩] : List AlmaSet) =
      .notFound "Absent" :=
  ⟨(c6_set_id_exact_match "Target"
      [⟨"ID1", "Other Name", 5, "/l1"⟩, ⟨"ID2", " Target ", 7, "/l2"⟩]).1
      "ID2" (by decide),
   (c6_set_id_exact_match "Absent"
      [⟨"ID1", "Other Name", 5, "/l1"⟩, ⟨"ID2", " Target ", 7, "/l2"⟩]).2
      (by decide)⟩

/-- C7 counterexample: in a cancel-requests run over two requests on
the same item link, with type filter WORK_ORDER and empty subtype, the
HOLD request does not match, yet the Matched-type-and-subtype report
column — computed from a map keyed by item link (part_008 lines 79-82
and 97-104) — reports it as matched, because the other request on the
same link matched. -/
theorem c7_counterexample :
    MatchTypeSubType ⟨"R2", "HOLD", "", ⟨"I1", "/items/1"⟩⟩ "WORK_ORDER" ""
      = false ∧
    matchedColumn
      [⟨"R1", "WORK_ORDER", "", ⟨"I1", "/items/1"⟩⟩,
       ⟨"R2", "HOLD", "", ⟨"I1", "/items/1"⟩⟩] "WORK_ORDER" ""
      ⟨"R2", "HOLD", "", ⟨"I1", "/items/1"⟩⟩ = true := by
  constructor <;> decide

/-- C7 amended: MatchTypeSubType returns true exactly when the type
filter is empty or equals the request type and the subtype filter is
empty or equals the request subtype; in a cancel-requests run without
dryrun, every DELETE call issued comes from a matching request, so
non-matching requests are never deleted; and the
Matched-type-and-subtype report column is computed per item link: a
request is reported as matched exactly when some request on the same
item link matched, so a non-matching request is reported as not
matched only when no request sharing its item link matched. -/
theorem c7_amended_match_and_report (requests : List UserRequest)
    (rtype subType : String) (r : UserRequest) :
    (MatchTypeSubType r rtype subType = true ↔
      ((rtype = "" ∨ rtype = r.RequestType) ∧
       (subType = "" ∨ subType = r.RequestSubType))) ∧
    (∀ u, u ∈ cancelRunDeletes requests rtype subType →
      ∃ q, q ∈ requests ∧ MatchTypeSubType q rtype subType = true ∧
        u = q.Member.Link ++ "/requests/" ++ q.ID) ∧
    (matchedColumn requests rtype subType r = true ↔
      ∃ q, q ∈ requests ∧ MatchTypeSubType q rtype subType = true ∧
        q.Member.Link = r.Member.Link) := by
  refine ⟨?_, ?_, ?_⟩
  · simp [MatchTypeSubType]
  · intro u hu
    unfold cancelRunDeletes cancelDeleteCalls matchingRequests at hu
    simp only [List.mem_map, List.mem_filter] at hu
    obtain ⟨q, ⟨⟨hq, hmatch⟩, _hlink⟩, hfq⟩ := hu
    exact ⟨q, hq, hmatch, hfq.symm⟩
  · unfold matchedColumn matchingRequests
    simp only [List.any_eq_true, List.mem_filter, beq_iff_eq]
    constructor
    · rintro ⟨q, ⟨hq, hm⟩, hl⟩
      exact ⟨q, hq, hm, hl⟩
    · rintro ⟨q, hq, hm, hl⟩
      exact ⟨q, ⟨hq, hm⟩, hl⟩

/-- C7 witness: the single DELETE call issued by the counterexample run
comes from the WORK_ORDER request, which matches the filter. -/
theorem c7_witness :
    ∃ q, q ∈ ([⟨"R1", "WORK_ORDER", "", ⟨"I1", "/items/1"⟩⟩,
        ⟨"R2", "HOLD", "", ⟨"I1", "/items/1"⟩⟩] : List UserRequest) ∧
      MatchTypeSubType q "WORK_ORDER" "" = true ∧
      "/items/1/requests/R1" = q.Member.Link ++ "/requests/" ++ q.ID :=
  (c7_amended_match_and_report
    [⟨"R1", "WORK_ORDER", "", ⟨"I1", "/items/1"⟩⟩,
     ⟨"R2", "HOLD", "", ⟨"I1", "/items/1"⟩⟩] "WORK_ORDER" ""
    ⟨"R2", "HOLD", "", ⟨"I1", "/items/1"⟩⟩).2.1
    "/items/1/requests/R1" (by decide)

theorem insertMember_keys_map (m : List (String × Member)) (mem : Member) :
    (insertMember m mem).map Prod.fst =
      if (m.map Prod.fst).contains mem.ID then m.map Prod.fst
      else m.map Prod.fst ++ [mem.ID] := by
  unfold insertMember
  split
  · rw [List.map_map]
    apply List.map_congr_left
    intro p _
    by_cases hp : p.1 = mem.ID
    · simp [hp]
    · simp [hp]
  · simp

theorem insertMember_keys_nodup (m : List (String × Member)) (mem : Member)
    (h : (m.map Prod.fst).Nodup) :
    ((insertMember m mem).map Prod.fst).Nodup := by
  rw [insertMember_keys_map]
  split
  · exact h
  case isFalse hc =>
    rw [List.nodup_append]
    refine ⟨h, List.nodup_singleton mem.ID, ?_⟩
    intro a ha hb
    rw [List.mem_singleton] at hb
    subst hb
    exact (show mem.ID ∉ m.map Prod.fst by simpa using hc) ha

theorem insertMember_keys_toFinset (m : List (String × Member)) (mem : Member) :
    ((insertMember m mem).map Prod.fst).toFinset =
      insert mem.ID (m.map Prod.fst).toFinset := by
  rw [insertMember_keys_map]
  split
  case isTrue hc =>
    rw [Finset.insert_eq_self.mpr]
    rw [List.mem_toFinset]
    simpa using hc
  case isFalse hc =>
    rw [List.toFinset_append, Finset.union_comm, Finset.insert_eq]
    simp

theorem insertMembers_keys (mems : List Member) :
    ∀ m : List (String × Member), (m.map Prod.fst).Nodup →
    ((insertMembers m mems).map Prod.fst).Nodup ∧
    ((insertMembers m mems).map Prod.fst).toFinset =
      (m.map Prod.fst).toFinset ∪ (mems.map Member.ID).toFinset := by
  induction mems with
  | nil => intro m h; simp [insertMembers, h]
  | cons mem mems ih =>
    intro m h
    have hstep : insertMembers m (mem :: mems) =
        insertMembers (insertMember m mem) mems := rfl
    rw [hstep]
    obtain ⟨hnd, hfin⟩ := ih (insertMember m mem)
      (insertMember_keys_nodup m mem h)
    refine ⟨hnd, ?_⟩
    rw [hfin, insertMember_keys_toFinset]
    simp only [List.map_cons, List.toFinset_cons]
    rw [Finset.insert_union, Finset.union_insert]

theorem collectPages_keys (pages : List (Except String (List Member))) :
    ∀ acc : List (String × Member) × List FetchErr,
    (acc.1.map Prod.fst).Nodup →
    (((pages.foldl
        (fun acc page =>
          match page with
          | .error e => (acc.1, acc.2 ++ [FetchErr.pageErr e])
          | .ok mems => (insertMembers acc.1 mems, acc.2)) acc).1.map
        Prod.fst).Nodup) ∧
    ((pages.foldl
        (fun acc page =>
          match page with
          | .error e => (acc.1, acc.2 ++ [FetchErr.pageErr e])
          | .ok mems => (insertMembers acc.1 mems, acc.2)) acc).1.map
        Prod.fst).toFinset =
      (acc.1.map Prod.fst).toFinset ∪ (successIDs pages).toFinset := by
  induction pages with
  | nil => intro acc h; simp [successIDs, h]
  | cons page pages ih =>
    intro acc h
    cases page with
    | error e =>
      obtain ⟨hnd, hfin⟩ := ih (acc.1, acc.2 ++ [FetchErr.pageErr e]) h
      refine ⟨hnd, ?_⟩
      rw [List.foldl_cons]
      rw [hfin]
      simp [successIDs]
    | ok mems =>
      obtain ⟨hnd2, hfin2⟩ := insertMembers_keys mems acc.1 h
      obtain ⟨hnd, hfin⟩ := ih (insertMembers acc.1 mems, acc.2) hnd2
      refine ⟨hnd, ?_⟩
      rw [List.foldl_cons]
      rw [hfin]
      simp only [hfin2]
      rw [Finset.union_assoc]
      congr 1
      simp [successIDs]

theorem dedupCount_eq_distinct_ids
    (pages : List (Except String (List Member))) :
    dedupCount pages = (successIDs pages).toFinset.card ∧
    ((collectPages pages).1.map Prod.fst).Nodup := by
  obtain ⟨hnd, hfin⟩ := collectPages_keys pages ([], []) (by simp)
  have hc : collectPages pages =
      pages.foldl
        (fun acc page =>
          match page with
          | .error e => (acc.1, acc.2 ++ [FetchErr.pageErr e])
          | .ok mems => (insertMembers acc.1 mems, acc.2)) ([], []) := rfl
  rw [hc]
  refine ⟨?_, hnd⟩
  rw [dedupCount]
  have hlen : (collectPages pages).1.length =
      ((collectPages pages).1.map Prod.fst).length := by simp
  rw [hlen, hc] at *
  rw [← List.toFinset_card_of_nodup hnd, hfin]
  simp

/-- C1: for every set, after all page-fetch jobs complete, SetMembers
returns a success (empty error list) only if the number of distinct
member IDs fetched equals the declared member count; whenever the
counts differ, it appends an error naming the found and expected
counts and returns the nil member slice instead of the partial list;
and the map size used in the check is exactly the number of distinct
member IDs across the successful pages. -/
theorem c1_member_count_consistency (declared : Nat)
    (pages : List (Except String (List Member))) :
    ((SetMembers declared pages).2 = [] →
      dedupCount pages = declared ∧
      (SetMembers declared pages).1.length = declared) ∧
    (dedupCount pages ≠ declared →
      (SetMembers declared pages).1 = [] ∧
      FetchErr.countMismatch (dedupCount pages) declared ∈
        (SetMembers declared pages).2) ∧
    dedupCount pages = (successIDs pages).toFinset.card := by
  refine ⟨?_, ?_, (dedupCount_eq_distinct_ids pages).1⟩
  · intro hempty
    unfold SetMembers at hempty ⊢
    by_cases hlen : (collectPages pages).1.length = declared
    · refine ⟨hlen, ?_⟩
      rw [if_neg (by omega)]
      simpa using hlen
    · rw [if_pos (by omega)] at hempty
      exact absurd hempty (by simp)
  · intro hne
    unfold SetMembers
    rw [if_pos (by exact hne)]
    exact ⟨rfl, by simp [dedupCount]⟩

/-- C1 witness: one successful page delivering the same member ID twice
against a declared count of two: the run is not a success, the nil
member list is returned, and the mismatch error names found count 1 and
expected count 2. -/
theorem c1_witness :
    (SetMembers 2 [Except.ok [⟨"A", "/a1"⟩, ⟨"A", "/a2"⟩]]).1 = [] ∧
    FetchErr.countMismatch
      (dedupCount [Except.ok [⟨"A", "/a1"⟩, ⟨"A", "/a2"⟩]]) 2 ∈
      (SetMembers 2 [Except.ok [⟨"A", "/a1"⟩, ⟨"A", "/a2"⟩]]).2 :=
  (c1_member_count_consistency 2
    [Except.ok [⟨"A", "/a1"⟩, ⟨"A", "/a2"⟩]]).2.1 (by decide)

/-- C10: for a set whose declared member count is zero, the page count
is zero, so no fetch jobs are created, and SetMembers returns the empty
member list with no errors: the consistency check compares zero with
zero and passes. -/
theorem c10_zero_declared_members (ID Name Link : String)
    (fetch : Nat → Except String (List Member)) :
    offsetsCount 0 = 0 ∧
    SetMembersRun ⟨ID, Name, 0, Link⟩ fetch = ([], []) := by
  have h0 : offsetsCount 0 = 0 := by decide
  refine ⟨h0, ?_⟩
  unfold SetMembersRun
  simp only [h0, List.range_zero, List.map_nil]
  simp [SetMembers, collectPages]

theorem poolInv_init (N W : Nat) : PoolInv N W (initPool N W) :=
  ⟨by simp [initPool], by simp [initPool], by simp [initPool],
   by simp [initPool]⟩

theorem poolInv_step (N W : Nat) (s t : PoolState) (hW : 1 ≤ W)
    (hinv : PoolInv N W s) (hstep : PoolStep s t) : PoolInv N W t := by
  obtain ⟨hjobs, hworkers, hclosed, hqueue⟩ := hinv
  cases hstep with
  | send j rest hts hcl =>
    refine ⟨?_, ?_, ?_, ?_⟩
    · show (↑rest + ↑(s.queue ++ [j]) + s.running + s.done : Multiset Nat) = _
      rw [hts] at hjobs
      have hcons : ((j :: rest : List Nat) : Multiset Nat) = {j} + ↑rest := by
        simp
      have happ : ((s.queue ++ [j] : List Nat) : Multiset Nat) =
          ↑s.queue + {j} := rfl
      rw [hcons] at hjobs
      rw [happ, ← hjobs]
      abel
    · exact hworkers
    · intro h
      rw [hcl] at h
      exact Bool.noConfusion h
    · rintro ⟨h1, h2⟩
      have hw := hworkers hcl
      rw [h1, h2] at hw
      simp at hw
      omega
  | close hts hcl =>
    refine ⟨hjobs, ?_, ?_, ?_⟩
    · intro h
      exact Bool.noConfusion h
    · intro _h
      exact hts
    · rintro ⟨h1, h2⟩
      have hw := hworkers hcl
      rw [h1, h2] at hw
      simp at hw
      omega
  | recv j rest hq hidle =>
    refine ⟨?_, ?_, ?_, ?_⟩
    · show (↑s.toSend + ↑rest + (j ::ₘ s.running) + s.done : Multiset Nat) = _
      rw [hq] at hjobs
      have hcons : ((j :: rest : List Nat) : Multiset Nat) = {j} + ↑rest := by
        simp
      have hcons2 : (j ::ₘ s.running : Multiset Nat) = {j} + s.running := by
        simp
      rw [hcons] at hjobs
      rw [hcons2, ← hjobs]
      abel
    · intro h
      have hw := hworkers h
      show s.idle - 1 + Multiset.card (j ::ₘ s.running) = W
      rw [Multiset.card_cons]
      omega
    · exact hclosed
    · rintro ⟨_h1, h2⟩
      exact absurd h2 (Multiset.cons_ne_zero)
  | finish j hmem =>
    refine ⟨?_, ?_, ?_, ?_⟩
    · show (↑s.toSend + ↑s.queue + s.running.erase j + (j ::ₘ s.done) :
          Multiset Nat) = _
      rw [← Multiset.cons_erase hmem] at hjobs
      have hcons : ((j ::ₘ s.running.erase j : Multiset Nat)) =
          {j} + s.running.erase j := by simp
      have hcons2 : ((j ::ₘ s.done : Multiset Nat)) = {j} + s.done := by simp
      rw [hcons] at hjobs
      rw [hcons2, ← hjobs]
      abel
    · intro h
      have hw := hworkers h
      have hcard : Multiset.card (s.running.erase j) =
          Multiset.card s.running - 1 := by
        rw [Multiset.card_erase_of_mem hmem]
        rfl
      have hpos : 1 ≤ Multiset.card s.running :=
        Multiset.card_pos.mpr (fun h0 => Multiset.not_mem_zero j (h0 ▸ hmem))
      show s.idle + 1 + Multiset.card (s.running.erase j) = W
      omega
    · exact hclosed
    · rintro ⟨h1, _h2⟩
      exact absurd h1 (Nat.succ_ne_zero s.idle)
  | exitWorker hcl hq hidle =>
    refine ⟨hjobs, ?_, hclosed, ?_⟩
    · intro h
      rw [hcl] at h
      exact Bool.noConfusion h
    · intro _h
      exact hq

theorem poolInv_reachable (N W : Nat) (s : PoolState) (hW : 1 ≤ W)
    (h : Relation.ReflTransGen PoolStep (initPool N W) s) : PoolInv N W s := by
  induction h with
  | refl => exact poolInv_init N W
  | tail _hab hbc ih => exact poolInv_step N W _ _ hW ih hbc

theorem poolStep_not_terminal (s t : PoolState) (hstep : PoolStep s t)
    (hterm : s.terminal) : False := by
  obtain ⟨hcl, hidle, hrun⟩ := hterm
  cases hstep with
  | send j rest hts hcl2 =>
    rw [hcl] at hcl2
    exact Bool.noConfusion hcl2
  | close hts hcl2 =>
    rw [hcl] at hcl2
    exact Bool.noConfusion hcl2
  | recv j rest hq hid => omega
  | finish j hmem =>
    rw [hrun] at hmem
    exact Multiset.not_mem_zero j hmem
  | exitWorker h1 h2 hid => omega

/-- C9: in the dispatcher model started with N jobs and at least one
worker, every reachable state in which StopConcurrent has returned (the
job channel is closed, every worker has exited, and no job is in
flight) has executed exactly the N submitted jobs — the done multiset
is exactly the N distinct job indices, so no job is dropped and none
runs twice — and no further transition is possible, so no job executes
and no result is reported after shutdown completes. -/
theorem c9_dispatcher_exact_jobs (N W : Nat) (s : PoolState) (hW : 1 ≤ W)
    (hreach : Relation.ReflTransGen PoolStep (initPool N W) s)
    (hterm : s.terminal) :
    s.done = (List.range N : Multiset Nat) ∧ ∀ t, ¬ PoolStep s t := by
  obtain ⟨hjobs, hworkers, hclosed, hqueue⟩ :=
    poolInv_reachable N W s hW hreach
  obtain ⟨hcl, hidle, hrun⟩ := hterm
  have hts : s.toSend = [] := hclosed hcl
  have hq : s.queue = [] := hqueue ⟨hidle, hrun⟩
  constructor
  · rw [hts, hq, hrun] at hjobs
    simpa using hjobs
  · intro t ht
    exact poolStep_not_terminal s t ht ⟨hcl, hidle, hrun⟩

theorem c9_trace : Relation.ReflTransGen PoolStep (initPool 1 1)
    (⟨[], [], 0, 0, {0}, true⟩ : PoolState) := by
  have h1 : PoolStep (initPool 1 1) (⟨[], [0], 1, 0, 0, false⟩ : PoolState) :=
    @PoolStep.send (initPool 1 1) 0 [] rfl rfl
  have h2 : PoolStep (⟨[], [0], 1, 0, 0, false⟩ : PoolState)
      (⟨[], [0], 1, 0, 0, true⟩ : PoolState) :=
    @PoolStep.close _ rfl rfl
  have h3 : PoolStep (⟨[], [0], 1, 0, 0, true⟩ : PoolState)
      (⟨[], [], 0, {0}, 0, true⟩ : PoolState) :=
    @PoolStep.recv _ 0 [] rfl (by decide)
  have h4 : PoolStep (⟨[], [], 0, {0}, 0, true⟩ : PoolState)
      (⟨[], [], 1, 0, {0}, true⟩ : PoolState) :=
    @PoolStep.finish _ 0 (by simp)
  have h5 : PoolStep (⟨[], [], 1, 0, {0}, true⟩ : PoolState)
      (⟨[], [], 0, 0, {0}, true⟩ : PoolState) :=
    @PoolStep.exitWorker _ rfl rfl (by decide)
  exact Relation.ReflTransGen.tail (Relation.ReflTransGen.tail
    (Relation.ReflTransGen.tail (Relation.ReflTransGen.tail
      (Relation.ReflTransGen.single h1) h2) h3) h4) h5

/-- C9 witness: a batch of one job on one worker, driven through
submit, close, receive, execute and exit: in the resulting shutdown
state the done multiset is exactly the one submitted job. -/
theorem c9_witness :
    (⟨[], [], 0, 0, {0}, true⟩ : PoolState).done =
      (List.range 1 : Multiset Nat) :=
  (c9_dispatcher_exact_jobs 1 1 ⟨[], [], 0, 0, {0}, true⟩ (by decide)
    c9_trace ⟨rfl, rfl, rfl⟩).1

/-- C3 witness: the amended statement at a concrete 404 GET response. -/
theorem c3_witness :
    doProcessResponse 0 "GET" "/almaws/v1/conf/sets" ⟨404, none, "nf"⟩ =
      .statusErr "GET" "/almaws/v1/conf/sets" 404 "nf" ∧
    clientDo false 0 "GET" "/almaws/v1/conf/sets" 30
      (fun _ => .response ⟨404, none, "nf"⟩) =
      ⟨doProcessResponse 0 "GET" "/almaws/v1/conf/sets" ⟨404, none, "nf"⟩,
        1, [0]⟩ :=
  ⟨(c3_amended_status_convention 0 "GET" "/almaws/v1/conf/sets"
      ⟨404, none, "nf"⟩ (by decide)).2.1 (by decide),
   (c3_amended_status_convention 0 "GET" "/almaws/v1/conf/sets"
      ⟨404, none, "nf"⟩ (by decide)).2.2 30
      (fun _ => .response ⟨404, none, "nf"⟩) rfl (by decide)⟩

end AlmaToolkit
